import Mathlib

/-
Verification of the rust-preprocessor document segmentation and entity
extraction core (src/document.rs, src/entities.rs).

Strings are modelled over ASCII text: character classes of the source
regexes, trimming and case mapping are embedded for the ASCII range.
The regular expressions of the source are hand-compiled to matchers with
leftmost-first (Perl-style, as in the rust regex crate) semantics,
including greedy backtracking where the pattern requires it.
Maps (std HashMap) are modelled as association lists with
overwrite-on-insert; insertion order is the fixed pattern order.
-/

namespace Prep

/-! ## Character and list utilities -/

/-- ASCII part of the whitespace class matched by the \s regex class and
by the trim and is_whitespace functions of the source. -/
def isWS (c : Char) : Bool :=
  c = ' ' || c = '\t' || c = '\n' || c = '\r' || c = '\x0B' || c = '\x0C'

def isUpperAZ (c : Char) : Bool := decide ('A' ≤ c ∧ c ≤ 'Z')

def isLowerAZ (c : Char) : Bool := decide ('a' ≤ c ∧ c ≤ 'z')

def isDigitA (c : Char) : Bool := decide ('0' ≤ c ∧ c ≤ '9')

def lowerChar (c : Char) : Char :=
  if isUpperAZ c then Char.ofNat (c.toNat + 32) else c

def upperChar (c : Char) : Char :=
  if isLowerAZ c then Char.ofNat (c.toNat - 32) else c

def lowerL (l : List Char) : List Char := l.map lowerChar

def upperL (l : List Char) : List Char := l.map upperChar

def trimL (l : List Char) : List Char :=
  ((l.dropWhile isWS).reverse.dropWhile isWS).reverse

def trimS (s : String) : String := ⟨trimL s.data⟩

def lowerS (s : String) : String := ⟨lowerL s.data⟩

/-- Number of bytes of the UTF-8 encoding of a character; str::len of the
source counts bytes. -/
def charBytes (c : Char) : Nat :=
  if c.toNat < 0x80 then 1
  else if c.toNat < 0x800 then 2
  else if c.toNat < 0x10000 then 3
  else 4

def utf8LenL (l : List Char) : Nat := (l.map charBytes).sum

/-- Does the first list occur as a leading segment of the second? -/
def leadsWith : List Char → List Char → Bool
  | [], _ => true
  | _ :: _, [] => false
  | n :: ns, h :: hs => n = h && leadsWith ns hs

/-- Substring test: str::contains of the source. -/
def hasSub : List Char → List Char → Bool
  | [], n => leadsWith n []
  | c :: t, n => leadsWith n (c :: t) || hasSub t n

def hasSubS (s sub : String) : Bool := hasSub s.data sub.data

/-- Split a character list at every separator character; n separators
yield n+1 pieces, as str::split does. -/
def splitPred (p : Char → Bool) : List Char → List (List Char)
  | [] => [[]]
  | c :: t =>
    if p c then [] :: splitPred p t
    else
      match splitPred p t with
      | [] => [[c]]
      | h :: r => (c :: h) :: r

/-- Strip one trailing carriage return, as str::lines does per line. -/
def stripCR (l : List Char) : List Char :=
  match l.reverse with
  | '\r' :: t => t.reverse
  | _ => l

/-- Drop the final piece when it is empty: the final line terminator of
str::lines is optional. -/
def removeLastEmpty (ls : List (List Char)) : List (List Char) :=
  match ls.reverse with
  | [] :: t => t.reverse
  | _ => ls

/-- str::lines of the source: split at newline, optional final
terminator, trailing carriage returns stripped. -/
def rustLines (s : String) : List String :=
  ((removeLastEmpty (splitPred (fun c => c = '\n') s.data)).map stripCR).map
    (fun l => (⟨l⟩ : String))

def wsRun (s : List Char) : Nat := (s.takeWhile isWS).length

/-! ## Section header patterns (document.rs, extract_sections)

Each of the six header regexes is hand-compiled.  All are anchored at the
start; the leading optional whitespace is deterministic because every
pattern continues with a non-whitespace class. -/

/-- Backtracking for a whitespace-then-rest tail of a header pattern:
one or more whitespace characters followed by a non-empty capture of
characters other than newline running to the end.  Greedy preference:
longest whitespace run first. -/
def tailCapGo (s : List Char) : Nat → Option (List Char)
  | 0 => none
  | j + 1 =>
    let rest := s.drop (j + 1)
    if rest ≠ [] ∧ rest.contains '\n' = false then some rest
    else tailCapGo s j

def tailCap (s : List Char) : Option (List Char) := tailCapGo s (wsRun s)

/-- Alternatives of the Roman numeral group in greedy, left-to-right
preference order of the source alternation. -/
def romanCands : List (List Char) :=
  [['I','I','I'], ['I','I'], ['I'], ['I','V'], ['V'],
   ['V','I','I','I'], ['V','I','I'], ['V','I'], ['I','X'], ['X']]

def romanTry (s : List Char) (cand : List Char) :
    Option (List Char × List Char) :=
  if leadsWith cand s then
    match s.drop cand.length with
    | '.' :: rest =>
      match tailCap rest with
      | some cap2 => some (cand, cap2)
      | none => none
    | _ => none
  else none

def romanGo (s : List Char) : List (List Char) → Option (List Char × List Char)
  | [] => none
  | c :: cs =>
    match romanTry s c with
    | some r => some r
    | none => romanGo s cs

/-- Level 1 header: Roman numeral, a dot, whitespace, text. -/
def matchRoman (line : List Char) : Option (List Char × List Char) :=
  romanGo (line.dropWhile isWS) romanCands

/-- Level 1 header: uppercase word or phrase followed by a colon.  The
capture is the maximal run of uppercase letters and whitespace after the
first uppercase letter; the character after the run must be the colon. -/
def matchUpColon (line : List Char) : Option (List Char) :=
  match line.dropWhile isWS with
  | [] => none
  | c :: rest =>
    if isUpperAZ c then
      let run := rest.takeWhile (fun x => isUpperAZ x || isWS x)
      if run ≠ [] then
        match rest.drop run.length with
        | ':' :: _ => some (c :: run)
        | _ => none
      else none
    else none

/-- Level 2 header: single uppercase letter, dot, whitespace, text. -/
def matchUpDot (line : List Char) : Option (List Char × List Char) :=
  match line.dropWhile isWS with
  | c :: '.' :: rest =>
    if isUpperAZ c then (tailCap rest).map (fun cap => ([c], cap)) else none
  | _ => none

/-- Level 2 header: integer, dot, whitespace, text. -/
def matchNumDot (line : List Char) : Option (List Char × List Char) :=
  let s := line.dropWhile isWS
  let d := s.takeWhile isDigitA
  if d = [] then none
  else
    match s.drop d.length with
    | '.' :: rest =>
      match tailCap rest with
      | some cap2 => some (d, cap2)
      | none => none
    | _ => none

/-- Level 3 header: single lowercase letter, dot, whitespace, text. -/
def matchLowDot (line : List Char) : Option (List Char × List Char) :=
  match line.dropWhile isWS with
  | c :: '.' :: rest =>
    if isLowerAZ c then (tailCap rest).map (fun cap => ([c], cap)) else none
  | _ => none

/-- Level 3 header: dotted numeric, whitespace, text. -/
def matchDotNum (line : List Char) : Option (List Char × List Char) :=
  let s := line.dropWhile isWS
  let d1 := s.takeWhile isDigitA
  if d1 = [] then none
  else
    match s.drop d1.length with
    | '.' :: r2 =>
      let d2 := r2.takeWhile isDigitA
      if d2 = [] then none
      else
        match tailCap (r2.drop d2.length) with
        | some cap2 => some (d1 ++ '.' :: d2, cap2)
        | none => none
    | _ => none

/-- Try the six header patterns in the fixed source order; the first
match wins.  Two-capture patterns build the title as the captures joined
with a space, the single-capture pattern uses its capture alone. -/
def headerMatch (line : List Char) : Option (String × Nat) :=
  match matchRoman line with
  | some (a, b) => some ((⟨a⟩ : String) ++ " " ++ (⟨b⟩ : String), 1)
  | none =>
    match matchUpColon line with
    | some a => some ((⟨a⟩ : String), 1)
    | none =>
      match matchUpDot line with
      | some (a, b) => some ((⟨a⟩ : String) ++ " " ++ (⟨b⟩ : String), 2)
      | none =>
        match matchNumDot line with
        | some (a, b) => some ((⟨a⟩ : String) ++ " " ++ (⟨b⟩ : String), 2)
        | none =>
          match matchLowDot line with
          | some (a, b) => some ((⟨a⟩ : String) ++ " " ++ (⟨b⟩ : String), 3)
          | none =>
            match matchDotNum line with
            | some (a, b) =>
              some ((⟨a⟩ : String) ++ " " ++ (⟨b⟩ : String), 3)
            | none => none

/-! ## Sections (document.rs, Section and extract_sections) -/

structure Section where
  title : Option String
  content : String
  level : Nat
deriving DecidableEq

structure SecState where
  flushed : List Section
  cur : Section
deriving DecidableEq

/-- The current section is pushed only when it has content or a title. -/
def flushIf (st : SecState) : List Section :=
  if st.cur.content ≠ "" ∨ st.cur.title.isSome then [st.cur] else []

def stepLine (st : SecState) (raw : String) : SecState :=
  let line := trimS raw
  if line = "" then st
  else
    match headerMatch line.data with
    | some (t, lvl) => ⟨st.flushed ++ flushIf st, ⟨some t, "", lvl⟩⟩
    | none =>
      ⟨st.flushed,
       ⟨st.cur.title,
        (if st.cur.content = "" then line
         else st.cur.content ++ "\n" ++ line),
        st.cur.level⟩⟩

def initState : SecState := ⟨[], ⟨none, "", 1⟩⟩

def runLines (ls : List String) : SecState := ls.foldl stepLine initState

def extractSections (content : String) : List Section :=
  let st := runLines (rustLines content)
  st.flushed ++ flushIf st

/-! ## Title extraction (document.rs, extract_title) -/

def stripLabel (lab s : String) : Option String :=
  if leadsWith lab.data s.data then some (⟨s.data.drop lab.data.length⟩ : String)
  else none

/-- The per-line checks of the title loop, in source order: the explicit
labels first, then the short-line heuristic.  A none means the loop
continues with the next line. -/
def titleOfLine (raw : String) : Option String :=
  let line := trimS raw
  if line = "" then none
  else
    match stripLabel ("Title:") line with
    | some r => some (trimS r)
    | none =>
      match stripLabel ("Name:") line with
      | some r => some (trimS r)
      | none =>
        if utf8LenL line.data < 100 ∧ line.data ≠ upperL line.data ∧
            hasSub line.data [':'] = false then
          some line
        else none

def firstTitle : List String → Option String
  | [] => none
  | l :: ls =>
    match titleOfLine l with
    | some t => some t
    | none => firstTitle ls

def extractTitle (content : String) : Option String :=
  firstTitle ((rustLines content).take 10)

/-! ## Metadata extraction (document.rs, extract_metadata)

Each metadata regex is case-insensitive and searched anywhere in the
document; the hand-compiled matcher is tried at every position from the
left, so the first position admitting a match wins, as with the leftmost
match of the regex crate. -/

/-- A hand-compiled single-pattern matcher: given a suffix of the text,
return the text of capture group 1 when the pattern matches there. -/
abbrev Matcher := List Char → Option (List Char)

/-- Case-insensitive literal word: the pattern word is stored lowercase
and compared against the lowered text. -/
def litCI : List Char → List Char → Option (List Char)
  | [], s => some s
  | _ :: _, [] => none
  | a :: as1, c :: cs => if lowerChar c = a then litCI as1 cs else none

/-- One or more whitespace characters; deterministic because each use is
followed by a non-whitespace literal. -/
def wsPlusThen (s : List Char) : Option (List Char) :=
  let k := wsRun s
  if k = 0 then none else some (s.drop k)

/-- A sequence of case-insensitive words separated by one-or-more
whitespace. -/
def matchWords : List (List Char) → List Char → Option (List Char)
  | [], s => some s
  | [w], s => litCI w s
  | w :: rest, s =>
    (litCI w s).bind fun r => (wsPlusThen r).bind (matchWords rest)

/-- Optional whitespace then a colon; deterministic since the colon is
not whitespace. -/
def colonThen (s : List Char) : Option (List Char) :=
  match s.drop (wsRun s) with
  | ':' :: r => some r
  | _ => none

/-- Optional whitespace then a non-empty greedy run of a character
class.  When the class itself contains whitespace the engine backtracks
into the optional-whitespace part, so shorter whitespace runs are tried
when the maximal one leaves an empty capture. -/
def capClassGo (cls : Char → Bool) (r : List Char) : Nat → Option (List Char)
  | 0 =>
    let cap := r.takeWhile cls
    if cap = [] then none else some cap
  | j + 1 =>
    let cap := (r.drop (j + 1)).takeWhile cls
    if cap = [] then capClassGo cls r j else some cap

def capClass (cls : Char → Bool) (r : List Char) : Option (List Char) :=
  capClassGo cls r (wsRun r)

def isAlnumDash (c : Char) : Bool :=
  isUpperAZ c || isLowerAZ c || isDigitA c || c = '-'

def isAlphaWs (c : Char) : Bool := isUpperAZ c || isLowerAZ c || isWS c

/-- Date capture: one or two digits, slash, one or two digits, slash,
two to four digits, all greedy with the bounded-repetition backtracking
of the source pattern. -/
def dateCap (s : List Char) : Option (List Char) :=
  let d1 := s.takeWhile isDigitA
  if d1 = [] ∨ 2 < d1.length then none
  else
    match s.drop d1.length with
    | '/' :: r2 =>
      let d2 := r2.takeWhile isDigitA
      if d2 = [] ∨ 2 < d2.length then none
      else
        match r2.drop d2.length with
        | '/' :: r3 =>
          let d3 := r3.takeWhile isDigitA
          if d3.length < 2 then none
          else some (d1 ++ '/' :: d2 ++ '/' :: d3.take 4)
        | _ => none
    | _ => none

/-- Money capture: an optional dollar sign outside the group, then
digits with an optional dot-and-two-digits tail. -/
def moneyCap (s : List Char) : Option (List Char) :=
  let s1 := match s with
            | '$' :: t => t
            | _ => s
  let d := s1.takeWhile isDigitA
  if d = [] then none
  else
    match s1.drop d.length with
    | '.' :: r2 =>
      let dd := r2.takeWhile isDigitA
      if 2 ≤ dd.length then some (d ++ '.' :: dd.take 2) else some d
    | _ => some d

/-- Matcher for a labelled field: case-insensitive words, optional
whitespace, colon, then the value matcher applied after the colon. -/
def labelled (words : List String) (value : List Char → Option (List Char)) :
    Matcher := fun s =>
  (matchWords (words.map String.data) s).bind fun r =>
    (colonThen r).bind value

def afterWs (value : List Char → Option (List Char)) :
    List Char → Option (List Char) := fun r => value (r.drop (wsRun r))

def planPats : List (String × Matcher × String) :=
  [("(?i)Plan\\s+ID\\s*:\\s*([A-Z0-9-]+)",
    labelled [("plan"), ("id")] (capClass isAlnumDash), ("plan_id")),
   ("(?i)Effective\\s+Date\\s*:\\s*(\\d{1,2}/\\d{1,2}/\\d{2,4})",
    labelled [("effective"), ("date")] (afterWs dateCap), ("effective_date")),
   ("(?i)Coverage\\s+Type\\s*:\\s*([A-Za-z\\s]+)",
    labelled [("coverage"), ("type")] (capClass isAlphaWs), ("coverage_type")),
   ("(?i)Premium\\s*:\\s*\\$?(\\d+(?:\\.\\d{2})?)",
    labelled [("premium")] (afterWs moneyCap), ("premium"))]

def policyPats : List (String × Matcher × String) :=
  [("(?i)Policy\\s+Number\\s*:\\s*([A-Z0-9-]+)",
    labelled [("policy"), ("number")] (capClass isAlnumDash), ("policy_number")),
   ("(?i)Policyholder\\s*:\\s*([A-Za-z\\s]+)",
    labelled [("policyholder")] (capClass isAlphaWs), ("policyholder")),
   ("(?i)Issue\\s+Date\\s*:\\s*(\\d{1,2}/\\d{1,2}/\\d{2,4})",
    labelled [("issue"), ("date")] (afterWs dateCap), ("issue_date")),
   ("(?i)Expiration\\s+Date\\s*:\\s*(\\d{1,2}/\\d{1,2}/\\d{2,4})",
    labelled [("expiration"), ("date")] (afterWs dateCap), ("expiration_date"))]

def claimPats : List (String × Matcher × String) :=
  [("(?i)Claim\\s+Number\\s*:\\s*([A-Z0-9-]+)",
    labelled [("claim"), ("number")] (capClass isAlnumDash), ("claim_number")),
   ("(?i)Date\\s+of\\s+Service\\s*:\\s*(\\d{1,2}/\\d{1,2}/\\d{2,4})",
    labelled [("date"), ("of"), ("service")] (afterWs dateCap), ("service_date")),
   ("(?i)Provider\\s*:\\s*([A-Za-z\\s]+)",
    labelled [("provider")] (capClass isAlphaWs), ("provider")),
   ("(?i)Amount\\s*:\\s*\\$?(\\d+(?:\\.\\d{2})?)",
    labelled [("amount")] (afterWs moneyCap), ("amount")),
   ("(?i)Status\\s*:\\s*([A-Za-z\\s]+)",
    labelled [("status")] (capClass isAlphaWs), ("status"))]

def genericPats : List (String × Matcher × String) :=
  [("(?i)ID\\s*:\\s*([A-Z0-9-]+)",
    labelled [("id")] (capClass isAlnumDash), ("id")),
   ("(?i)Date\\s*:\\s*(\\d{1,2}/\\d{1,2}/\\d{2,4})",
    labelled [("date")] (afterWs dateCap), ("date")),
   ("(?i)Name\\s*:\\s*([A-Za-z\\s]+)",
    labelled [("name")] (capClass isAlphaWs), ("name"))]

def mdPatsFor (dt : String) : List (String × Matcher × String) :=
  if dt = "plan" then planPats
  else if dt = "policy" then policyPats
  else if dt = "claim" then claimPats
  else genericPats

/-- Unanchored search: try the matcher at each position from the left,
first success wins. -/
def searchPos (m : Matcher) : List Char → Option (List Char)
  | [] => m []
  | c :: t =>
    match m (c :: t) with
    | some r => some r
    | none => searchPos m t

/-- HashMap insert: overwrite the value when the key is present,
otherwise append. -/
def insertKV : List (String × String) → String → String →
    List (String × String)
  | [], k, v => [(k, v)]
  | (k0, v0) :: t, k, v =>
    if k0 = k then (k0, v) :: t else (k0, v0) :: insertKV t k v

def lookupKV : List (String × String) → String → Option String
  | [], _ => none
  | (k0, v0) :: t, k => if k0 = k then some v0 else lookupKV t k

def mdApply (acc : List (String × String)) (m : Matcher) (key : String)
    (content : List Char) : List (String × String) :=
  match searchPos m content with
  | some cap => insertKV acc key (trimS (⟨cap⟩ : String))
  | none => acc

def mdFold : List (String × Matcher × String) → List Char →
    List (String × String) → List (String × String)
  | [], _, acc => acc
  | (_, m, key) :: rest, content, acc =>
    mdFold rest content (mdApply acc m key content)

def extractMetadata (content : String) (dt : String) :
    List (String × String) :=
  mdFold (mdPatsFor dt) content.data []

/-! ## ProcessedDocument (document.rs, process) -/

structure ProcessedDocument where
  doc_type : String
  title : Option String
  sections : List Section
  metadata : List (String × String)
deriving DecidableEq

def process (content dt : String) : ProcessedDocument :=
  ⟨dt, extractTitle content, extractSections content,
   extractMetadata content dt⟩

/-! ## Entities (entities.rs) -/

structure Entity where
  entity_type : String
  name : String
  description : Option String
  related : List String
  attributes : List (String × String)
deriving DecidableEq

/-- Copy a metadata map into an entity attribute map by repeated
insert, as the source loops do. -/
def copyKV (src : List (String × String)) : List (String × String) :=
  src.foldl (fun m kv => insertKV m kv.1 kv.2) []

/-- Title-and-content blob scanned by every cross-cutting extractor. -/
def sectText (s : Section) : String :=
  match s.title with
  | some t => t ++ " " ++ s.content
  | none => s.content

def gateBy (kws : List String) (text : String) : Bool :=
  kws.any fun kw => hasSubS (lowerS text) kw

def hasDescTitle (t : String) : Bool :=
  hasSubS (lowerS t) ("overview") || hasSubS (lowerS t) ("description") ||
    hasSubS (lowerS t) ("summary")

/-- First section whose title names an overview, description or summary
supplies the primary entity description. -/
def findDescr : List Section → Option String
  | [] => none
  | s :: rest =>
    match s.title with
    | some t => if hasDescTitle t then some s.content else findDescr rest
    | none => findDescr rest

/-! ### Structured list-item patterns (extract_benefits, extract_exclusions)

The two multiline item regexes are hand-compiled with full backtracking:
the bullet class and the non-colon capture overlap, as do padded
whitespace and the non-colon capture, so run lengths are tried longest
first as a leftmost-first engine does. -/

def itemClass1 (c : Char) : Bool :=
  isWS c || c = '•' || c = '-' || c = '*'

/-- The final capture of both item patterns: one or more non-newline
characters running to the end of the line.  Returns the capture and the
remaining text after the match. -/
def lineCap (t : List Char) : Option (List Char × List Char) :=
  let cap := t.takeWhile (fun c => c ≠ '\n')
  if cap = [] then none else some (cap, t.drop cap.length)

/-- The separator alternation: a colon, or whitespace-dash-whitespace,
tried in that order, each followed by the line capture. -/
def sepThen (r : List Char) : Option (List Char × List Char) :=
  match (match r with
         | ':' :: t => lineCap t
         | _ => none) with
  | some x => some x
  | none =>
    match r with
    | w1 :: '-' :: w2 :: t =>
      if isWS w1 ∧ isWS w2 then lineCap t else none
    | _ => none

/-- Backtracking over the length of the non-colon capture group, longest
first.  Returns capture one, capture two and the rest of the text. -/
def tryCap1 (q : List Char) : Nat → Option (List Char × List Char × List Char)
  | 0 => none
  | j + 1 =>
    match sepThen (q.drop (j + 1)) with
    | some (cap2, rest) => some (q.take (j + 1), cap2, rest)
    | none => tryCap1 q j

/-- Backtracking over the length of the leading bullet-class run of the
first item pattern, longest first. -/
def tryK1A (s : List Char) : Nat → Option (List Char × List Char × List Char)
  | 0 => none
  | k + 1 =>
    match tryCap1 (s.drop (k + 1))
        (((s.drop (k + 1)).takeWhile (fun c => c ≠ ':')).length) with
    | some r => some r
    | none => tryK1A s k

/-- First item pattern, anchored at a line start: one or more bullet or
whitespace characters, a non-colon capture, a separator, and the rest of
the line. -/
def matchA (s : List Char) : Option (List Char × List Char × List Char) :=
  tryK1A s ((s.takeWhile itemClass1).length)

/-- Backtracking over the one-or-more whitespace run of the second item
pattern. -/
def tryWsB (r2 : List Char) : Nat → Option (List Char × List Char × List Char)
  | 0 => none
  | k + 1 =>
    match tryCap1 (r2.drop (k + 1))
        (((r2.drop (k + 1)).takeWhile (fun c => c ≠ ':')).length) with
    | some r => some r
    | none => tryWsB r2 k

/-- Second item pattern, anchored at a line start: optional whitespace,
digits, a dot, whitespace, then capture, separator, rest of line. -/
def matchB (s : List Char) : Option (List Char × List Char × List Char) :=
  let s1 := s.drop (wsRun s)
  let d := s1.takeWhile isDigitA
  if d = [] then none
  else
    match s1.drop d.length with
    | '.' :: r2 => tryWsB r2 (wsRun r2)
    | _ => none

/-- Leftmost match of a multiline-anchored pattern: try the matcher at
every position where a line starts, earliest position first. -/
def findPat (m : List Char → Option (List Char × List Char × List Char)) :
    Bool → List Char → Option (List Char × List Char × List Char)
  | atLS, [] => if atLS then m [] else none
  | atLS, c :: t =>
    match (if atLS then m (c :: t) else none) with
    | some r => some r
    | none => findPat m (c = '\n') t

/-- All non-overlapping matches in order, each search resuming after the
end of the previous match, as captures_iter does. -/
def scanPat (m : List Char → Option (List Char × List Char × List Char)) :
    Nat → Bool → List Char → List (List Char × List Char)
  | 0, _, _ => []
  | f + 1, atLS, s =>
    match findPat m atLS s with
    | none => []
    | some (c1, c2, rest) => (c1, c2) :: scanPat m f false rest

def scanAll (m : List Char → Option (List Char × List Char × List Char))
    (text : List Char) : List (List Char × List Char) :=
  scanPat m (text.length + 1) true text

/-- All capture pairs of both item patterns, first pattern's matches
first, mirroring the two captures_iter loops of the source. -/
def structuredPairs (text : String) : List (String × String) :=
  (scanAll matchA text.data ++ scanAll matchB text.data).map
    fun p => ((⟨p.1⟩ : String), (⟨p.2⟩ : String))

/-- pattern_found_entities of the source: does either item pattern have
a match in the text? -/
def anyPatFound (text : String) : Bool :=
  (findPat matchA true text.data).isSome ||
    (findPat matchB true text.data).isSome

/-- Sentence split of the fallback path: split at dots and newlines,
trim, drop empties. -/
def sentSplit (text : String) : List String :=
  (((splitPred (fun c => c = '.' || c = '\n') text.data).map trimL).filter
    (fun l => l ≠ [])).map (fun l => (⟨l⟩ : String))

/-! ### Benefits and exclusions -/

def benKeywords : List String :=
  ["benefit", "benefits", "covered", "coverage", "covers", "included",
   "includes"]

def benStructEnts (text : String) : List Entity :=
  (structuredPairs text).map fun p =>
    ⟨"Benefit", trimS p.1, some (trimS p.2), [], []⟩

def benFallEnts (text : String) : List Entity :=
  ((sentSplit text).filter
      (fun st => benKeywords.any fun kw => hasSubS (lowerS st) kw)).map
    fun st => ⟨"Benefit", st, none, [], []⟩

def benSection (s : Section) : List Entity :=
  if gateBy benKeywords (sectText s) then
    benStructEnts (sectText s) ++
      (if anyPatFound (sectText s) then [] else benFallEnts (sectText s))
  else []

def extractBenefits (doc : ProcessedDocument) : List Entity :=
  (doc.sections.map benSection).flatten

def exclKeywords : List String :=
  ["exclusion", "exclusions", "excluded", "not covered", "not include",
   "limitation", "limitations"]

def exclStructEnts (text : String) : List Entity :=
  (structuredPairs text).map fun p =>
    ⟨"Exclusion", trimS p.1, some (trimS p.2), [], []⟩

def exclFallEnts (text : String) : List Entity :=
  ((sentSplit text).filter
      (fun st => exclKeywords.any fun kw => hasSubS (lowerS st) kw)).map
    fun st => ⟨"Exclusion", st, none, [], []⟩

def exclSection (s : Section) : List Entity :=
  if gateBy exclKeywords (sectText s) then
    exclStructEnts (sectText s) ++
      (if anyPatFound (sectText s) then [] else exclFallEnts (sectText s))
  else []

def extractExclusions (doc : ProcessedDocument) : List Entity :=
  (doc.sections.map exclSection).flatten

/-! ### Procedures (extract_procedures)

The Aho-Corasick search with standard match kind reports non-overlapping
matches by earliest end position; when several vocabulary terms end at
the same position the automaton state's own, longest term is reported.
The iterator resumes at the end of each reported match. -/

def procTerms : List String :=
  ["surgery", "consultation", "examination", "x-ray", "mri", "ct scan",
   "ultrasound", "blood test", "vaccination", "immunization", "therapy",
   "treatment", "screening", "checkup", "physical", "dental cleaning",
   "filling", "root canal", "crown", "prescription", "medication",
   "injection", "infusion", "dialysis", "transplant", "rehabilitation",
   "physical therapy", "occupational therapy", "speech therapy",
   "chemotherapy", "radiation", "anesthesia", "biopsy", "colonoscopy",
   "endoscopy", "mammogram", "pap smear", "prenatal care", "delivery",
   "maternity", "emergency", "ambulance", "hospitalization", "inpatient",
   "outpatient", "preventive care"]

def acPats : List (List Char × String) :=
  procTerms.map fun t => (t.data, t)

/-- Longest vocabulary term that ends at the current position (its
reversal leads the reversed prefix read so far) and starts no earlier
than the end of the previous reported match. -/
def bestAt (rp : List Char) (allow : Nat) : Option String :=
  (acPats.foldl
    (fun best pr =>
      if pr.1.length ≤ allow ∧ leadsWith pr.1.reverse rp then
        match best with
        | none => some pr
        | some b => if b.1.length < pr.1.length then some pr else some b
      else best)
    none).map (fun pr => pr.2)

def acGo : List Char → List Char → Nat → List String
  | [], _, _ => []
  | c :: rest, rp, since =>
    match bestAt (c :: rp) (since + 1) with
    | some nm => nm :: acGo rest (c :: rp) 0
    | none => acGo rest (c :: rp) (since + 1)

def acFindAll (text : List Char) : List String := acGo text [] 0

def extractProcedures (doc : ProcessedDocument) : List Entity :=
  (doc.sections.map fun s =>
    (acFindAll (lowerL (sectText s).data)).map fun nm =>
      (⟨"Procedure", nm, none, [], []⟩ : Entity)).flatten

/-! ### Coverage, conditions and limitations -/

def covKeywords : List String :=
  ["coverage", "covers", "covered", "benefit", "benefits"]

def covSection (s : Section) : List Entity :=
  if gateBy covKeywords (sectText s) then
    [⟨"Coverage", s.title.getD ("Coverage"), some s.content, [], []⟩]
  else []

def extractCoverage (doc : ProcessedDocument) : List Entity :=
  (doc.sections.map covSection).flatten

def condKeywords : List String :=
  ["condition", "conditions", "requirement", "requirements",
   "prerequisite", "prerequisites"]

def limKeywords : List String :=
  ["limitation", "limitations", "limit", "limits", "restricted",
   "restriction", "restrictions"]

def condLimSection (s : Section) : List Entity :=
  (if gateBy condKeywords (sectText s) then
    [⟨"Condition", s.title.getD ("Condition"), some s.content, [], []⟩]
   else []) ++
  (if gateBy limKeywords (sectText s) then
    [⟨"Limitation", s.title.getD ("Limitation"), some s.content, [], []⟩]
   else [])

def extractCondLim (doc : ProcessedDocument) : List Entity :=
  (doc.sections.map condLimSection).flatten

/-! ### Type dispatch (extract_plan_entities and friends) -/

def planEntities (doc : ProcessedDocument) : List Entity :=
  (⟨"Plan", doc.title.getD ("Unnamed Plan"), findDescr doc.sections, [],
    copyKV doc.metadata⟩ : Entity) :: extractCoverage doc

def policyEntities (doc : ProcessedDocument) : List Entity :=
  (⟨"Policy", doc.title.getD ("Unnamed Policy"), findDescr doc.sections, [],
    copyKV doc.metadata⟩ : Entity) :: extractCondLim doc

/-- The claim entity is pushed, then the provider entity when a provider
field exists, and the provider name is appended to the related list of
the claim entity already in the vector. -/
def claimEntities (doc : ProcessedDocument) : List Entity :=
  let cname := (lookupKV doc.metadata ("claim_number")).getD ("Unnamed Claim")
  match lookupKV doc.metadata ("provider") with
  | some p =>
    [⟨"Claim", cname, none, [p], copyKV doc.metadata⟩,
     ⟨"Provider", p, none, [cname], []⟩]
  | none => [⟨"Claim", cname, none, [], copyKV doc.metadata⟩]

def genericEntities (doc : ProcessedDocument) : List Entity :=
  [⟨"Document", doc.title.getD ("Unnamed Document"), none, [],
    copyKV doc.metadata⟩]

def dispatchEntities (doc : ProcessedDocument) (dt : String) : List Entity :=
  if dt = "plan" then planEntities doc
  else if dt = "policy" then policyEntities doc
  else if dt = "claim" then claimEntities doc
  else genericEntities doc

/-! ### Deduplication (deduplicate_entities) and extract -/

/-- The dedup key of the source: the type and name formatted with a
colon between them. -/
def entKey (e : Entity) : String := e.entity_type ++ ":" ++ e.name

def dedupAux (seen : List String) : List Entity → List Entity
  | [] => []
  | e :: t =>
    if entKey e ∈ seen then dedupAux seen t
    else e :: dedupAux (entKey e :: seen) t

def deduplicate (es : List Entity) : List Entity := dedupAux [] es

/-- Accumulation order of extract: type dispatch, then benefits,
exclusions and procedures over every section. -/
def collectEntities (doc : ProcessedDocument) (dt : String) : List Entity :=
  dispatchEntities doc dt ++ extractBenefits doc ++ extractExclusions doc ++
    extractProcedures doc

def extract (doc : ProcessedDocument) (dt : String) : List Entity :=
  deduplicate (collectEntities doc dt)

/-! ### Result plumbing (anyhow::Result of the source)

The only constructed error of the core is the with_context message
around metadata pattern compilation.  The patterns are fixed, valid
regex literals, so compilation is modelled as always succeeding; the
Except layer mirrors the propagation structure of the source. -/

/-- Modelled from the spec: compilation of a fixed built-in pattern
literal by the regex engine; the built-in pattern sets are valid, so
construction succeeds.  Failure would be a fatal configuration error. -/
def regexCompile (_pat : String) : Except String Unit := Except.ok ()

def mdFoldE : List (String × Matcher × String) → List Char →
    List (String × String) → Except String (List (String × String))
  | [], _, acc => Except.ok acc
  | (pat, m, key) :: rest, content, acc =>
    match regexCompile pat with
    | Except.error e =>
      Except.error (("Failed to compile regex pattern: " ++ pat) ++ ": " ++ e)
    | Except.ok _ => mdFoldE rest content (mdApply acc m key content)

def extractSectionsE (content : String) : Except String (List Section) :=
  Except.ok (extractSections content)

def processE (content dt : String) : Except String ProcessedDocument := do
  let secs ← extractSectionsE content
  let md ← mdFoldE (mdPatsFor dt) content.data []
  Except.ok ⟨dt, extractTitle content, secs, md⟩

/-- Every sub-extractor of entities.rs ends in Ok(()); the entity list
result is therefore always Ok. -/
def extractE (doc : ProcessedDocument) (dt : String) :
    Except String (List Entity) :=
  Except.ok (extract doc dt)

/-! ## Spec-side definitions

These definitions follow the wording of the specification and are
compared with the source-derived definitions above. -/

/-- Written from the spec's deduplication policy: keep the first
occurrence of each (entity_type, name) pair, drop every later duplicate,
keep the relative order of the kept entities. -/
def specAux (seen : List (String × String)) : List Entity → List Entity
  | [] => []
  | e :: t =>
    if (e.entity_type, e.name) ∈ seen then specAux seen t
    else e :: specAux ((e.entity_type, e.name) :: seen) t

def specKeepFirst (l : List Entity) : List Entity := specAux [] l

/-- Written from the spec's empty-input clause: the single primary
entity produced for an empty document, typed by doc_type, with empty
attributes and no description. -/
def primaryEntityOf (dt : String) : Entity :=
  if dt = "plan" then ⟨"Plan", "Unnamed Plan", none, [], []⟩
  else if dt = "policy" then ⟨"Policy", "Unnamed Policy", none, [], []⟩
  else if dt = "claim" then ⟨"Claim", "Unnamed Claim", none, [], []⟩
  else ⟨"Document", "Unnamed Document", none, [], []⟩

/-- The content accumulated by the current section over a run of
non-header lines: trimmed non-blank lines joined with newlines. -/
def contentFold (acc : String) (ls : List String) : String :=
  ls.foldl
    (fun a l =>
      let t := trimS l
      if t = "" then a else if a = "" then t else a ++ "\n" ++ t)
    acc

/-- A line matching either Level 1 header pattern. -/
def lvl1Match (l : List Char) : Bool :=
  (matchRoman l).isSome || (matchUpColon l).isSome

/-- A line matching either Level 3 header pattern. -/
def lvl3Match (l : List Char) : Bool :=
  (matchLowDot l).isSome || (matchDotNum l).isSome

/-- A retained section has a title or non-empty content. -/
def goodSec (s : Section) : Prop := s.content ≠ "" ∨ s.title.isSome = true

/-- The end-to-end example input of the spec. -/
def planText : String :=
  "Title: Sample Plan\nPlan ID: ABC-123\nEffective Date: 01/01/2024\nOVERVIEW:\nThis plan covers surgery and consultation.\n"

/-! ## Deduplication theory -/

theorem mem_of_dedupAux {l : List Entity} {e : Entity} :
    ∀ {seen : List String}, e ∈ dedupAux seen l → e ∈ l := by
  induction l with
  | nil => intro seen h; simp [dedupAux] at h
  | cons a t ih =>
    intro seen h
    simp only [dedupAux] at h
    by_cases hk : entKey a ∈ seen
    · rw [if_pos hk] at h
      exact List.mem_cons_of_mem _ (ih h)
    · rw [if_neg hk] at h
      rcases List.mem_cons.1 h with rfl | h2
      · exact List.mem_cons_self _ _
      · exact List.mem_cons_of_mem _ (ih h2)

theorem dedupAux_not_seen {l : List Entity} {e : Entity} :
    ∀ {seen : List String}, e ∈ dedupAux seen l → entKey e ∉ seen := by
  induction l with
  | nil => intro seen h; simp [dedupAux] at h
  | cons a t ih =>
    intro seen h
    simp only [dedupAux] at h
    by_cases hk : entKey a ∈ seen
    · rw [if_pos hk] at h; exact ih h
    · rw [if_neg hk] at h
      rcases List.mem_cons.1 h with rfl | h2
      · exact hk
      · intro hc
        exact ih h2 (List.mem_cons_of_mem _ hc)

theorem dedupAux_pairwise (l : List Entity) :
    ∀ seen, (dedupAux seen l).Pairwise fun a b => entKey a ≠ entKey b := by
  induction l with
  | nil => intro seen; simp [dedupAux]
  | cons a t ih =>
    intro seen
    simp only [dedupAux]
    by_cases hk : entKey a ∈ seen
    · rw [if_pos hk]; exact ih _
    · rw [if_neg hk]
      refine List.Pairwise.cons ?_ (ih _)
      intro b hb he
      exact dedupAux_not_seen hb (by rw [← he]; exact List.mem_cons_self _ _)

theorem dedupAux_of_clean {l : List Entity} :
    ∀ {seen}, (∀ e ∈ l, entKey e ∉ seen) →
    (l.Pairwise fun a b => entKey a ≠ entKey b) → dedupAux seen l = l := by
  induction l with
  | nil => intro seen _ _; simp [dedupAux]
  | cons a t ih =>
    intro seen h1 h2
    simp only [dedupAux]
    rw [if_neg (h1 a (List.mem_cons_self _ _))]
    congr 1
    apply ih
    · intro e he hc
      rcases List.mem_cons.1 hc with hkey | hseen
      · exact (List.pairwise_cons.1 h2).1 e he hkey.symm
      · exact h1 e (List.mem_cons_of_mem _ he) hseen
    · exact (List.pairwise_cons.1 h2).2

theorem dedup_idem (l : List Entity) :
    deduplicate (deduplicate l) = deduplicate l :=
  dedupAux_of_clean (fun _ _ => List.not_mem_nil _) (dedupAux_pairwise _ _)

/-! ## Key-collision analysis: the formatted key determines the pair
when the type contains no colon -/

theorem append_colon_inj : ∀ (a c b d : List Char), ':' ∉ a → ':' ∉ c →
    a ++ ':' :: b = c ++ ':' :: d → a = c ∧ b = d := by
  intro a
  induction a with
  | nil =>
    intro c b d _ hc h
    cases c with
    | nil => simpa using h
    | cons x xs =>
      simp only [List.nil_append, List.cons_append, List.cons.injEq] at h
      exact absurd (h.1 ▸ List.mem_cons_self x xs) hc
  | cons y ys ih =>
    intro c b d ha hc h
    cases c with
    | nil =>
      simp only [List.nil_append, List.cons_append, List.cons.injEq] at h
      exact absurd (h.1 ▸ List.mem_cons_self y ys) ha
    | cons x xs =>
      simp only [List.cons_append, List.cons.injEq] at h
      obtain ⟨rfl, h2⟩ := h
      have hr := ih xs b d (fun hm => ha (List.mem_cons_of_mem _ hm))
        (fun hm => hc (List.mem_cons_of_mem _ hm)) h2
      exact ⟨by rw [hr.1], hr.2⟩

theorem strExt : ∀ {a b : String}, a.data = b.data → a = b := by
  intro a b h
  cases a
  cases b
  exact congrArg String.mk h

theorem key_data (x y : String) :
    (x ++ ":" ++ y).data = x.data ++ ':' :: y.data := by
  rw [String.data_append, String.data_append]
  simp

theorem entKey_eq_iff (e f : Entity) (he : ':' ∉ e.entity_type.data)
    (hf : ':' ∉ f.entity_type.data) :
    entKey e = entKey f ↔ e.entity_type = f.entity_type ∧ e.name = f.name := by
  constructor
  · intro h
    have hd : e.entity_type.data ++ ':' :: e.name.data =
        f.entity_type.data ++ ':' :: f.name.data := by
      have h2 := congrArg String.data h
      rwa [entKey, entKey, key_data, key_data] at h2
    obtain ⟨h1, h2⟩ := append_colon_inj _ _ _ _ he hf hd
    exact ⟨strExt h1, strExt h2⟩
  · rintro ⟨h1, h2⟩
    rw [entKey, entKey, h1, h2]

theorem dedupAux_eq_specAux : ∀ (l : List Entity) (seenS : List String)
    (seenP : List (String × String)),
    (∀ e ∈ l, ':' ∉ e.entity_type.data) →
    (∀ p ∈ seenP, ':' ∉ p.1.data) →
    (∀ e : Entity, ':' ∉ e.entity_type.data →
      (entKey e ∈ seenS ↔ (e.entity_type, e.name) ∈ seenP)) →
    dedupAux seenS l = specAux seenP l := by
  intro l
  induction l with
  | nil => intro seenS seenP _ _ _; rfl
  | cons e t ih =>
    intro seenS seenP hl hs hcorr
    have he := hl e (List.mem_cons_self _ _)
    simp only [dedupAux, specAux]
    by_cases hmem : (e.entity_type, e.name) ∈ seenP
    · rw [if_pos ((hcorr e he).mpr hmem), if_pos hmem]
      exact ih _ _ (fun f hf => hl f (List.mem_cons_of_mem _ hf)) hs hcorr
    · rw [if_neg (fun h => hmem ((hcorr e he).mp h)), if_neg hmem]
      congr 1
      apply ih
      · exact fun f hf => hl f (List.mem_cons_of_mem _ hf)
      · intro p hp
        rcases List.mem_cons.1 hp with rfl | hp2
        · exact he
        · exact hs p hp2
      · intro f hfc
        constructor
        · intro hmf
          rcases List.mem_cons.1 hmf with hk | hk
          · have := (entKey_eq_iff f e hfc he).mp hk
            exact List.mem_cons.2 (Or.inl (by rw [this.1, this.2]))
          · exact List.mem_cons.2 (Or.inr ((hcorr f hfc).mp hk))
        · intro hmf
          rcases List.mem_cons.1 hmf with hk | hk
          · refine List.mem_cons.2 (Or.inl ?_)
            apply (entKey_eq_iff f e hfc he).mpr
            exact ⟨congrArg Prod.fst hk, congrArg Prod.snd hk⟩
          · exact List.mem_cons.2 (Or.inr ((hcorr f hfc).mpr hk))

theorem dedup_eq_spec (l : List Entity)
    (hl : ∀ e ∈ l, ':' ∉ e.entity_type.data) :
    deduplicate l = specKeepFirst l :=
  dedupAux_eq_specAux l [] [] hl (by simp) (by simp)

/-! ## Section extraction lemmas -/

theorem stepLine_flushed (st : SecState) (l : String) :
    ∃ t, (stepLine st l).flushed = st.flushed ++ t := by
  unfold stepLine
  by_cases hb : trimS l = ""
  · exact ⟨[], by rw [if_pos hb]; simp⟩
  · rw [if_neg hb]
    cases headerMatch (trimS l).data with
    | none => exact ⟨[], by simp⟩
    | some p => exact ⟨flushIf st, rfl⟩

theorem foldl_flushed (ms : List String) :
    ∀ st : SecState, ∃ t, (ms.foldl stepLine st).flushed = st.flushed ++ t := by
  induction ms with
  | nil => intro st; exact ⟨[], by simp⟩
  | cons m rest ih =>
    intro st
    obtain ⟨t1, h1⟩ := stepLine_flushed st m
    obtain ⟨t2, h2⟩ := ih (stepLine st m)
    exact ⟨t1 ++ t2, by
      rw [List.foldl_cons, h2, h1, List.append_assoc]⟩

theorem flushIf_good (st : SecState) : ∀ s ∈ flushIf st, goodSec s := by
  intro s hs
  unfold flushIf at hs
  by_cases hc : st.cur.content ≠ "" ∨ st.cur.title.isSome
  · rw [if_pos hc] at hs
    rcases List.mem_singleton.1 hs with rfl
    rcases hc with h | h
    · exact Or.inl h
    · exact Or.inr h
  · rw [if_neg hc] at hs
    simp at hs

theorem stepLine_good (st : SecState) (l : String)
    (h : ∀ s ∈ st.flushed, goodSec s) :
    ∀ s ∈ (stepLine st l).flushed, goodSec s := by
  intro s hs
  unfold stepLine at hs
  by_cases hb : trimS l = ""
  · rw [if_pos hb] at hs; exact h s hs
  · rw [if_neg hb] at hs
    cases hm : headerMatch (trimS l).data with
    | none => rw [hm] at hs; exact h s hs
    | some p =>
      rw [hm] at hs
      rcases List.mem_append.1 hs with h1 | h2
      · exact h s h1
      · exact flushIf_good st s h2

theorem foldl_good (ms : List String) :
    ∀ st : SecState, (∀ s ∈ st.flushed, goodSec s) →
    ∀ s ∈ (ms.foldl stepLine st).flushed, goodSec s := by
  induction ms with
  | nil => intro st h; exact h
  | cons m rest ih =>
    intro st h
    exact ih (stepLine st m) (stepLine_good st m h)

theorem extractSections_good (text : String) :
    ∀ s ∈ extractSections text, goodSec s := by
  intro s hs
  unfold extractSections runLines at hs
  rcases List.mem_append.1 hs with h1 | h2
  · exact foldl_good _ initState (by simp [initState]) s h1
  · exact flushIf_good _ s h2

/-- A run of non-header lines only grows the current section content;
the flushed list stays empty when it starts empty with an untitled
current section. -/
theorem runLines_noheader : ∀ (ls : List String) (acc : String),
    (∀ l ∈ ls, headerMatch (trimS l).data = none) →
    ls.foldl stepLine ⟨[], ⟨none, acc, 1⟩⟩ =
      ⟨[], ⟨none, contentFold acc ls, 1⟩⟩ := by
  intro ls
  induction ls with
  | nil => intro acc _; rfl
  | cons l rest ih =>
    intro acc hh
    rw [List.foldl_cons]
    have hstep : stepLine ⟨[], ⟨none, acc, 1⟩⟩ l =
        ⟨[], ⟨none, (if trimS l = "" then acc
                     else if acc = "" then trimS l
                     else acc ++ "\n" ++ trimS l), 1⟩⟩ := by
      unfold stepLine
      by_cases hb : trimS l = ""
      · rw [if_pos hb, if_pos hb]
      · rw [if_neg hb, hh l (List.mem_cons_self _ _), if_neg hb]
    rw [hstep]
    have hcf : contentFold acc (l :: rest) =
        contentFold (if trimS l = "" then acc
                     else if acc = "" then trimS l
                     else acc ++ "\n" ++ trimS l) rest := by
      unfold contentFold
      rw [List.foldl_cons]
    rw [hcf]
    exact ih _ (fun m hm => hh m (List.mem_cons_of_mem _ hm))

/-- When a header line follows an initial run of non-header lines that
accumulated content, the first flushed section is the initial untitled
level 1 section carrying exactly that content. -/
theorem initial_section_flushed (pre : List String) (hl : String)
    (rest : List String) (t : String) (lvl : Nat)
    (hpre : ∀ l ∈ pre, headerMatch (trimS l).data = none)
    (hh : headerMatch (trimS hl).data = some (t, lvl))
    (hc : contentFold "" pre ≠ "") :
    ∃ tl, (runLines (pre ++ hl :: rest)).flushed =
      (⟨none, contentFold "" pre, 1⟩ : Section) :: tl := by
  unfold runLines initState
  rw [List.foldl_append, runLines_noheader pre "" hpre, List.foldl_cons]
  have hb : trimS hl ≠ "" := by
    intro heq
    rw [heq] at hh
    rw [show headerMatch (("" : String).data) = none from rfl] at hh
    exact Option.noConfusion hh
  have hstep : stepLine ⟨[], ⟨none, contentFold "" pre, 1⟩⟩ hl =
      ⟨[⟨none, contentFold "" pre, 1⟩], ⟨some t, "", lvl⟩⟩ := by
    unfold stepLine
    rw [if_neg hb, hh]
    unfold flushIf
    rw [if_pos (Or.inl hc)]
    rfl
  rw [hstep]
  obtain ⟨t2, ht2⟩ := foldl_flushed rest _
  exact ⟨t2, by rw [ht2]; rfl⟩

/-! ## Header precedence lemma -/

theorem headerMatch_of_lvl1 (l : List Char) (h : lvl1Match l = true) :
    ∃ t, headerMatch l = some (t, 1) := by
  unfold lvl1Match at h
  rcases Bool.or_eq_true_iff.1 h with h1 | h2
  · obtain ⟨p, hp⟩ := Option.isSome_iff_exists.1 h1
    exact ⟨(⟨p.1⟩ : String) ++ " " ++ (⟨p.2⟩ : String), by
      unfold headerMatch; rw [hp]⟩
  · cases hr : matchRoman l with
    | some p =>
      exact ⟨(⟨p.1⟩ : String) ++ " " ++ (⟨p.2⟩ : String), by
        unfold headerMatch; rw [hr]⟩
    | none =>
      obtain ⟨a, ha⟩ := Option.isSome_iff_exists.1 h2
      exact ⟨(⟨a⟩ : String), by unfold headerMatch; rw [hr, ha]⟩

/-! ## Entity shape lemmas -/

theorem benSection_shape {s : Section} {e : Entity} (h : e ∈ benSection s) :
    e.entity_type = "Benefit" ∧ e.related = [] ∧ e.attributes = [] := by
  unfold benSection at h
  split at h
  · rcases List.mem_append.1 h with h1 | h1
    · simp only [benStructEnts, List.mem_map] at h1
      obtain ⟨p, _, rfl⟩ := h1
      exact ⟨rfl, rfl, rfl⟩
    · split at h1
      · simp at h1
      · simp only [benFallEnts, List.mem_map] at h1
        obtain ⟨p, _, rfl⟩ := h1
        exact ⟨rfl, rfl, rfl⟩
  · simp at h

theorem extractBenefits_shape {doc : ProcessedDocument} {e : Entity}
    (h : e ∈ extractBenefits doc) :
    e.entity_type = "Benefit" ∧ e.related = [] ∧ e.attributes = [] := by
  unfold extractBenefits at h
  obtain ⟨l, hl, he⟩ := List.mem_flatten.1 h
  obtain ⟨s, _, rfl⟩ := List.mem_map.1 hl
  exact benSection_shape he

theorem exclSection_shape {s : Section} {e : Entity} (h : e ∈ exclSection s) :
    e.entity_type = "Exclusion" ∧ e.related = [] ∧ e.attributes = [] := by
  unfold exclSection at h
  split at h
  · rcases List.mem_append.1 h with h1 | h1
    · simp only [exclStructEnts, List.mem_map] at h1
      obtain ⟨p, _, rfl⟩ := h1
      exact ⟨rfl, rfl, rfl⟩
    · split at h1
      · simp at h1
      · simp only [exclFallEnts, List.mem_map] at h1
        obtain ⟨p, _, rfl⟩ := h1
        exact ⟨rfl, rfl, rfl⟩
  · simp at h

theorem extractExclusions_shape {doc : ProcessedDocument} {e : Entity}
    (h : e ∈ extractExclusions doc) :
    e.entity_type = "Exclusion" ∧ e.related = [] ∧ e.attributes = [] := by
  unfold extractExclusions at h
  obtain ⟨l, hl, he⟩ := List.mem_flatten.1 h
  obtain ⟨s, _, rfl⟩ := List.mem_map.1 hl
  exact exclSection_shape he

theorem extractProcedures_shape {doc : ProcessedDocument} {e : Entity}
    (h : e ∈ extractProcedures doc) :
    e.entity_type = "Procedure" ∧ e.related = [] ∧ e.attributes = [] := by
  unfold extractProcedures at h
  obtain ⟨l, hl, he⟩ := List.mem_flatten.1 h
  obtain ⟨s, _, rfl⟩ := List.mem_map.1 hl
  obtain ⟨nm, _, rfl⟩ := List.mem_map.1 he
  exact ⟨rfl, rfl, rfl⟩

theorem covSection_shape {s : Section} {e : Entity} (h : e ∈ covSection s) :
    e.entity_type = "Coverage" ∧ e.related = [] ∧ e.attributes = [] := by
  unfold covSection at h
  split at h
  · rcases List.mem_singleton.1 h with rfl
    exact ⟨rfl, rfl, rfl⟩
  · simp at h

theorem extractCoverage_shape {doc : ProcessedDocument} {e : Entity}
    (h : e ∈ extractCoverage doc) :
    e.entity_type = "Coverage" ∧ e.related = [] ∧ e.attributes = [] := by
  unfold extractCoverage at h
  obtain ⟨l, hl, he⟩ := List.mem_flatten.1 h
  obtain ⟨s, _, rfl⟩ := List.mem_map.1 hl
  exact covSection_shape he

theorem condLimSection_shape {s : Section} {e : Entity}
    (h : e ∈ condLimSection s) :
    (e.entity_type = "Condition" ∨ e.entity_type = "Limitation") ∧
      e.related = [] ∧ e.attributes = [] := by
  unfold condLimSection at h
  rcases List.mem_append.1 h with h1 | h1
  · split at h1
    · rcases List.mem_singleton.1 h1 with rfl
      exact ⟨Or.inl rfl, rfl, rfl⟩
    · simp at h1
  · split at h1
    · rcases List.mem_singleton.1 h1 with rfl
      exact ⟨Or.inr rfl, rfl, rfl⟩
    · simp at h1

theorem extractCondLim_shape {doc : ProcessedDocument} {e : Entity}
    (h : e ∈ extractCondLim doc) :
    (e.entity_type = "Condition" ∨ e.entity_type = "Limitation") ∧
      e.related = [] ∧ e.attributes = [] := by
  unfold extractCondLim at h
  obtain ⟨l, hl, he⟩ := List.mem_flatten.1 h
  obtain ⟨s, _, rfl⟩ := List.mem_map.1 hl
  exact condLimSection_shape he

/-- Shape of the entities produced by the type dispatch: known type tags,
relations only on the claim path, and bare secondary entities. -/
theorem dispatch_shape {doc : ProcessedDocument} {dt : String} {e : Entity}
    (h : e ∈ dispatchEntities doc dt) :
    e.entity_type ∈ (["Plan", "Policy", "Claim", "Provider", "Document",
        "Coverage", "Condition", "Limitation"] : List String) ∧
    (e.related ≠ [] → dt = "claim" ∧
      (e.entity_type = "Claim" ∨ e.entity_type = "Provider")) ∧
    (e.entity_type ∈ (["Benefit", "Exclusion", "Procedure", "Coverage",
        "Condition", "Limitation"] : List String) →
      e.related = [] ∧ e.attributes = []) ∧
    (e.attributes ≠ [] →
      e.entity_type ∈ (["Plan", "Policy", "Claim", "Document"] :
        List String)) := by
  unfold dispatchEntities at h
  split at h
  · -- plan
    rcases List.mem_cons.1 h with rfl | h1
    · exact ⟨by simp, fun hr => absurd rfl hr, fun hm => by simp at hm,
        fun _ => by simp⟩
    · obtain ⟨ht, hr, ha⟩ := extractCoverage_shape h1
      exact ⟨by simp [ht], fun hc => absurd hr hc, fun _ => ⟨hr, ha⟩,
        fun hc => absurd ha hc⟩
  · split at h
    · -- policy
      rcases List.mem_cons.1 h with rfl | h1
      · exact ⟨by simp, fun hr => absurd rfl hr, fun hm => by simp at hm,
          fun _ => by simp⟩
      · obtain ⟨ht, hr, ha⟩ := extractCondLim_shape h1
        refine ⟨?_, fun hc => absurd hr hc, fun _ => ⟨hr, ha⟩,
          fun hc => absurd ha hc⟩
        rcases ht with ht | ht <;> simp [ht]
    · split at h
      · -- claim
        rename_i hdt
        unfold claimEntities at h
        cases hp : lookupKV doc.metadata ("provider") with
        | some p =>
          rw [hp] at h
          rcases List.mem_cons.1 h with rfl | h1
          · exact ⟨by simp, fun _ => ⟨hdt, Or.inl rfl⟩,
              fun hm => by simp at hm, fun _ => by simp⟩
          · rcases List.mem_singleton.1 h1 with rfl
            exact ⟨by simp, fun _ => ⟨hdt, Or.inr rfl⟩,
              fun hm => by simp at hm, fun hc => absurd rfl hc⟩
        | none =>
          rw [hp] at h
          rcases List.mem_singleton.1 h with rfl
          exact ⟨by simp, fun hr => absurd rfl hr,
            fun hm => by simp at hm, fun _ => by simp⟩
      · -- generic
        rcases List.mem_singleton.1 h with rfl
        exact ⟨by simp, fun hr => absurd rfl hr,
          fun hm => by simp at hm, fun _ => by simp⟩

theorem collect_colonFree {doc : ProcessedDocument} {dt : String} :
    ∀ e ∈ collectEntities doc dt, ':' ∉ e.entity_type.data := by
  intro e h
  unfold collectEntities at h
  rcases List.mem_append.1 h with h | hp
  rcases List.mem_append.1 h with h | hx
  rcases List.mem_append.1 h with hd | hb
  · have := (dispatch_shape hd).1
    simp only [List.mem_cons, List.not_mem_nil, or_false] at this
    rcases this with h | h | h | h | h | h | h | h <;> rw [h] <;> decide
  · rw [(extractBenefits_shape hb).1]; decide
  · rw [(extractExclusions_shape hx).1]; decide
  · rw [(extractProcedures_shape hp).1]; decide

/-! ## Scanner and Except-layer lemmas -/

theorem scanAll_nil_iff
    (m : List Char → Option (List Char × List Char × List Char))
    (text : List Char) :
    scanAll m text = [] ↔ findPat m true text = none := by
  cases hf : findPat m true text with
  | none => simp [scanAll, scanPat, hf]
  | some r =>
    obtain ⟨c1, c2, rest⟩ := r
    simp [scanAll, scanPat, hf]

theorem mdFoldE_ok : ∀ (ps : List (String × Matcher × String))
    (content : List Char) (acc : List (String × String)),
    mdFoldE ps content acc = Except.ok (mdFold ps content acc) := by
  intro ps
  induction ps with
  | nil => intro c a; rfl
  | cons p rest ih =>
    intro c a
    obtain ⟨pat, m, key⟩ := p
    exact ih c (mdApply a m key c)

/-! ## Claim theorems -/

/-- C1: for every input text and doc_type, the entity list returned by
extract has no two entities sharing the same (entity_type, name) pair,
and it equals the keep-first-occurrence filtering of the pre-dedup
accumulation: first occurrence kept, later duplicates dropped, relative
order preserved. -/
theorem extract_dedup_firstwins (text dt : String) :
    ((extract (process text dt) dt).Pairwise fun a b =>
      ¬(a.entity_type = b.entity_type ∧ a.name = b.name)) ∧
    extract (process text dt) dt =
      specKeepFirst (collectEntities (process text dt) dt) := by
  constructor
  · have hp := dedupAux_pairwise (collectEntities (process text dt) dt) []
    refine List.Pairwise.imp ?_ hp
    intro a b hk hab
    exact hk (by rw [entKey, entKey, hab.1, hab.2])
  · exact dedup_eq_spec _ collect_colonFree

/-- C8: processing and extraction are deterministic for identical input,
and deduplication is idempotent: running dedup again over an extraction
result returns it unchanged. -/
theorem extract_deterministic_idempotent :
    (∀ text dt : String,
      extract (process text dt) dt = extract (process text dt) dt) ∧
    (∀ (doc : ProcessedDocument) (dt : String),
      deduplicate (extract doc dt) = extract doc dt) :=
  ⟨fun _ _ => rfl, fun doc dt => dedup_idem (collectEntities doc dt)⟩

/-- C4: the six header patterns are tried in the fixed order with the
first match short-circuiting: a line matching a Level 1 pattern is
always classified level 1, in particular any line that also matched a
Level 3 pattern. -/
theorem header_first_match_level1 :
    (∀ l : List Char, lvl1Match l = true →
      ∃ t, headerMatch l = some (t, 1)) ∧
    (∀ l : List Char, lvl1Match l = true → lvl3Match l = true →
      ∃ t, headerMatch l = some (t, 1)) :=
  ⟨headerMatch_of_lvl1, fun l h1 _ => headerMatch_of_lvl1 l h1⟩

theorem header_first_match_level1_witness :
    ∃ t, headerMatch (("OVERVIEW:").data) = some (t, 1) :=
  header_first_match_level1.1 (("OVERVIEW:").data) (by decide)

/-- C5: every retained section has a title or non-empty content;
sections are flushed in document order (processing more lines only
extends the flushed list); a document with no header lines keeps exactly
the initial untitled level 1 section whenever it accumulates content;
and when a header follows initial content-bearing non-header lines, the
initial untitled level 1 section is the first section of the output. -/
theorem sections_invariants :
    (∀ text : String, ∀ s ∈ extractSections text, goodSec s) ∧
    (∀ ls ms : List String, ∃ t,
      (runLines (ls ++ ms)).flushed = (runLines ls).flushed ++ t) ∧
    (∀ text : String,
      (∀ l ∈ rustLines text, headerMatch (trimS l).data = none) →
      extractSections text =
        (if contentFold "" (rustLines text) = "" then []
         else [⟨none, contentFold "" (rustLines text), 1⟩])) ∧
    (∀ (pre : List String) (hl : String) (rest : List String) (t : String)
        (lvl : Nat),
      (∀ l ∈ pre, headerMatch (trimS l).data = none) →
      headerMatch (trimS hl).data = some (t, lvl) →
      contentFold "" pre ≠ "" →
      ∃ tl, (runLines (pre ++ hl :: rest)).flushed =
        (⟨none, contentFold "" pre, 1⟩ : Section) :: tl) := by
  refine ⟨extractSections_good, fun ls ms => ?_, fun text hh => ?_,
    initial_section_flushed⟩
  · unfold runLines
    rw [List.foldl_append]
    exact foldl_flushed ms _
  · unfold extractSections runLines initState
    rw [runLines_noheader (rustLines text) "" hh]
    by_cases hc : contentFold "" (rustLines text) = "" <;>
      simp [flushIf, hc]

theorem sections_invariants_witness :
    extractSections ("hello world\n") =
      ([⟨none, "hello world", 1⟩] : List Section) :=
  (sections_invariants.2.2.1 ("hello world\n") (by decide)).trans (by decide)

/-- C2 fails on the code: the per-line short-line heuristic fires on the
first line before the labelled second line is ever examined, so the
title of the example input is the first line, not the labelled value. -/
theorem title_heuristic_beats_label :
    extractTitle ("Foo Bar\nTitle: Real Title\n") = some ("Foo Bar") ∧
    extractTitle ("Foo Bar\nTitle: Real Title\n") ≠ some ("Real Title") :=
  ⟨by decide, by decide⟩

/-- C2 amended: the label check precedes the heuristic only within a
single line; lines are scanned in order and the first line matching any
rule wins.  Hence the example input yields the first line as title,
while the labelled value is extracted when no earlier line matches any
rule. -/
theorem title_label_first_per_line :
    (∀ l r : String, stripLabel ("Title:") (trimS l) = some r →
      titleOfLine l = some (trimS r)) ∧
    extractTitle ("Foo Bar\nTitle: Real Title\n") = some ("Foo Bar") ∧
    extractTitle ("FOO BAR:\nTitle: Real Title\n") = some ("Real Title") := by
  refine ⟨fun l r h => ?_, by decide, by decide⟩
  have hne : trimS l ≠ "" := by
    intro heq
    rw [heq] at h
    rw [show stripLabel ("Title:") "" = none from rfl] at h
    exact Option.noConfusion h
  simp only [titleOfLine]
  rw [if_neg hne, h]

theorem title_label_first_per_line_witness :
    titleOfLine ("Title: X") = some (trimS (" X")) :=
  title_label_first_per_line.1 ("Title: X") (" X") (by decide)

/-- C9: processing and extraction always return Ok: the only fallible
steps are the fixed pattern constructions, which succeed, and the Result
plumbing introduces no other failure. -/
theorem pipeline_always_ok (content dt : String) :
    processE content dt = Except.ok (process content dt) ∧
    extractE (process content dt) dt =
      Except.ok (extract (process content dt) dt) := by
  constructor
  · show (do
      let secs ← extractSectionsE content
      let md ← mdFoldE (mdPatsFor dt) content.data []
      Except.ok ⟨dt, extractTitle content, secs, md⟩ :
        Except String ProcessedDocument) = _
    rw [mdFoldE_ok]
    rfl
  · rfl

/-- C6: the empty input yields a document with no title, no sections and
empty metadata for every doc_type, and extraction on it yields exactly
the one primary entity of that doc_type, with empty attributes and no
description. -/
theorem empty_input_single_primary (dt : String) :
    process "" dt = ⟨dt, none, [], []⟩ ∧
    extract (process "" dt) dt = [primaryEntityOf dt] := by
  have hmd : extractMetadata "" dt = [] := by
    unfold extractMetadata mdPatsFor
    by_cases h1 : dt = "plan"
    · rw [if_pos h1]; rfl
    · rw [if_neg h1]
      by_cases h2 : dt = "policy"
      · rw [if_pos h2]; rfl
      · rw [if_neg h2]
        by_cases h3 : dt = "claim"
        · rw [if_pos h3]; rfl
        · rw [if_neg h3]; rfl
  have hproc : process "" dt = ⟨dt, none, [], []⟩ := by
    unfold process
    rw [hmd]
    rfl
  refine ⟨hproc, ?_⟩
  rw [hproc]
  unfold extract collectEntities dispatchEntities primaryEntityOf
  by_cases h1 : dt = "plan"
  · rw [if_pos h1, if_pos h1]; rfl
  · rw [if_neg h1, if_neg h1]
    by_cases h2 : dt = "policy"
    · rw [if_pos h2, if_pos h2]; rfl
    · rw [if_neg h2, if_neg h2]
      by_cases h3 : dt = "claim"
      · rw [if_pos h3, if_pos h3]; rfl
      · rw [if_neg h3, if_neg h3]; rfl

/-- C3: the five-line example processed as a plan yields the labelled
title, exactly the two metadata fields, a Plan entity carrying those
attributes whose description contains the overview sentence, and
Procedure entities named surgery and consultation. -/
theorem end_to_end_plan_example :
    (process planText "plan").title = some ("Sample Plan") ∧
    (process planText "plan").metadata =
      [("plan_id", "ABC-123"), ("effective_date", "01/01/2024")] ∧
    (∃ e ∈ extract (process planText "plan") "plan",
      e.entity_type = "Plan" ∧ e.name = "Sample Plan" ∧
      e.attributes = (process planText "plan").metadata ∧
      e.description.isSome = true ∧
      hasSubS (e.description.getD "")
        ("This plan covers surgery and consultation.") = true) ∧
    (∃ e ∈ extract (process planText "plan") "plan",
      e.entity_type = "Procedure" ∧ e.name = "surgery") ∧
    (∃ e ∈ extract (process planText "plan") "plan",
      e.entity_type = "Procedure" ∧ e.name = "consultation") := by
  refine ⟨by decide, by decide, by decide, by decide, by decide⟩

/-- C7: for a section passing the benefits keyword gate, the sentence
fallback runs exactly when the structured patterns produced zero Benefit
entities; fallback entities are name-only and there is one per keyword
bearing sentence. -/
theorem benefits_fallback_iff (s : Section)
    (hg : gateBy benKeywords (sectText s) = true) :
    ((anyPatFound (sectText s) = false) ↔ benStructEnts (sectText s) = []) ∧
    benSection s = benStructEnts (sectText s) ++
      (if anyPatFound (sectText s) = false then benFallEnts (sectText s)
       else []) ∧
    (∀ e ∈ benFallEnts (sectText s),
      e.entity_type = "Benefit" ∧ e.description = none) ∧
    (∀ n : String, (∃ e ∈ benFallEnts (sectText s), e.name = n) ↔
      (n ∈ sentSplit (sectText s) ∧
        (benKeywords.any fun kw => hasSubS (lowerS n) kw) = true)) := by
  refine ⟨⟨fun hf => ?_, fun he => ?_⟩, ?_, fun e he => ?_, fun n => ⟨?_, ?_⟩⟩
  · have hA : findPat matchA true (sectText s).data = none := by
      cases h : findPat matchA true (sectText s).data with
      | none => rfl
      | some r => rw [anyPatFound, h] at hf; simp at hf
    have hB : findPat matchB true (sectText s).data = none := by
      cases h : findPat matchB true (sectText s).data with
      | none => rfl
      | some r => rw [anyPatFound, h] at hf; simp at hf
    unfold benStructEnts structuredPairs
    rw [(scanAll_nil_iff _ _).2 hA, (scanAll_nil_iff _ _).2 hB]
    rfl
  · unfold benStructEnts structuredPairs at he
    rcases List.append_eq_nil.1 (by simpa using he) with ⟨hA, hB⟩
    unfold anyPatFound
    rw [(scanAll_nil_iff _ _).1 hA, (scanAll_nil_iff _ _).1 hB]
    rfl
  · unfold benSection
    rw [if_pos hg]
    cases h : anyPatFound (sectText s) <;> simp [h]
  · simp only [benFallEnts, List.mem_map] at he
    obtain ⟨st, _, rfl⟩ := he
    exact ⟨rfl, rfl⟩
  · rintro ⟨e, he, rfl⟩
    simp only [benFallEnts, List.mem_map] at he
    obtain ⟨st, hst, rfl⟩ := he
    exact ⟨(List.mem_filter.1 hst).1, (List.mem_filter.1 hst).2⟩
  · rintro ⟨h1, h2⟩
    refine ⟨⟨"Benefit", n, none, [], []⟩, ?_, rfl⟩
    simp only [benFallEnts, List.mem_map]
    exact ⟨n, List.mem_filter.2 ⟨h1, h2⟩, rfl⟩

theorem benefits_fallback_iff_witness :
    benSection ⟨some ("Benefits"), "covered stuff", 1⟩ =
      benStructEnts (sectText ⟨some ("Benefits"), "covered stuff", 1⟩) ++
      (if anyPatFound (sectText ⟨some ("Benefits"), "covered stuff", 1⟩)
          = false then
        benFallEnts (sectText ⟨some ("Benefits"), "covered stuff", 1⟩)
       else []) :=
  (benefits_fallback_iff ⟨some ("Benefits"), "covered stuff", 1⟩
    (by decide)).2.1

/-- C10: in every output list, Benefit, Exclusion, Procedure, Coverage,
Condition and Limitation entities have empty related lists and empty
attributes; non-empty attributes occur only on the primary entity types;
and non-empty related lists occur only on the Claim and Provider
entities of a claim document. -/
theorem secondary_entities_bare (text dt : String) :
    ∀ e ∈ extract (process text dt) dt,
      (e.entity_type ∈ (["Benefit", "Exclusion", "Procedure", "Coverage",
          "Condition", "Limitation"] : List String) →
        e.related = [] ∧ e.attributes = []) ∧
      (e.attributes ≠ [] → e.entity_type ∈
        (["Plan", "Policy", "Claim", "Document"] : List String)) ∧
      (e.related ≠ [] → dt = "claim" ∧
        (e.entity_type = "Claim" ∨ e.entity_type = "Provider")) := by
  intro e he
  have hc : e ∈ collectEntities (process text dt) dt := mem_of_dedupAux he
  unfold collectEntities at hc
  rcases List.mem_append.1 hc with h | hp
  rcases List.mem_append.1 h with h | hx
  rcases List.mem_append.1 h with hd | hb
  · obtain ⟨_, h2, h3, h4⟩ := dispatch_shape hd
    exact ⟨h3, h4, h2⟩
  · obtain ⟨_, hr, ha⟩ := extractBenefits_shape hb
    exact ⟨fun _ => ⟨hr, ha⟩, fun hcon => absurd ha hcon,
      fun hcon => absurd hr hcon⟩
  · obtain ⟨_, hr, ha⟩ := extractExclusions_shape hx
    exact ⟨fun _ => ⟨hr, ha⟩, fun hcon => absurd ha hcon,
      fun hcon => absurd hr hcon⟩
  · obtain ⟨_, hr, ha⟩ := extractProcedures_shape hp
    exact ⟨fun _ => ⟨hr, ha⟩, fun hcon => absurd ha hcon,
      fun hcon => absurd hr hcon⟩

theorem secondary_entities_bare_witness :
    ((⟨"Benefit", "benefits", none, [], []⟩ : Entity).entity_type ∈
        (["Benefit", "Exclusion", "Procedure", "Coverage", "Condition",
          "Limitation"] : List String) →
      (⟨"Benefit", "benefits", none, [], []⟩ : Entity).related = [] ∧
      (⟨"Benefit", "benefits", none, [], []⟩ : Entity).attributes = []) ∧
    ((⟨"Benefit", "benefits", none, [], []⟩ : Entity).attributes ≠ [] →
      (⟨"Benefit", "benefits", none, [], []⟩ : Entity).entity_type ∈
        (["Plan", "Policy", "Claim", "Document"] : List String)) ∧
    ((⟨"Benefit", "benefits", none, [], []⟩ : Entity).related ≠ [] →
      ("x" : String) = "claim" ∧
      ((⟨"Benefit", "benefits", none, [], []⟩ : Entity).entity_type = "Claim" ∨
       (⟨"Benefit", "benefits", none, [], []⟩ : Entity).entity_type =
         "Provider")) :=
  secondary_entities_bare ("benefits\n") ("x")
    ⟨"Benefit", "benefits", none, [], []⟩ (by decide)

end Prep
